import Mathlib

/-!
Shallow embedding of the url-checker service core (packages `database` and
`service`) and proofs about its batch-processing, probing and report paths.

External effects are modelled explicitly:
* the SQLite store is a `Store` value threaded through every operation;
* the cancellation context is a `CtxTrace`: one boolean per point in the
  code where the context is observed (each `ExecContext`/`QueryContext`
  call and each `select`/`ctx.Done()` check);
* the network (URL parsing, request construction, the HTTP round trip) is a
  `ProbeEnv` of oracles consulted by `checkURLAvailability`;
* per-link goroutines act on disjoint link ids and disjoint result slots,
  so the fan-out is sequentialized in slot-index order without losing any
  outcome distinguishable by the store or the results slice.
-/

/-- `models.LinkStatus`: "processing", "available", "not available". -/
inductive LinkStatus
  | processing
  | available
  | notAvailable
deriving Repr, DecidableEq

/-- `models.BatchStatus`: "processing", "completed", "failed". -/
inductive BatchStatus
  | processing
  | completed
  | failed
deriving Repr, DecidableEq

/-- `models.Link`: one row of the `links` table.  `time` is the nullable
`DATETIME` column (timestamps abstracted to `Nat`). -/
structure Link where
  id : Nat
  url : String
  status : LinkStatus
  batchNum : Nat
  time : Option Nat
deriving Repr, DecidableEq

/-- `models.Batch`: one row of the `batches` table, keyed by `links_num`. -/
structure Batch where
  linksNum : Nat
  status : BatchStatus
  createdAt : Nat
deriving Repr, DecidableEq

/-- The SQLite database: the two tables plus the AUTOINCREMENT counter that
assigns `links.id`. -/
structure Store where
  batches : List Batch
  links : List Link
  nextLinkID : Nat
deriving Repr, DecidableEq

/-- Error kinds of the service, mapping the wrapped Go error strings to the
spec's taxonomy. -/
inductive Err
  | cancelled
  | noLinksProvided
  | noBatchIDs
  | noValidBatches
  | timeout
  | shuttingDown
  | persistence
deriving Repr, DecidableEq

/-- `Database.GetMaxBatchNum`: `SELECT COALESCE(MAX(links_num), 0) FROM
batches`. -/
def GetMaxBatchNum (s : Store) : Nat :=
  s.batches.foldl (fun m b => max m b.linksNum) 0

/-- `Database.CreateBatch`: `INSERT INTO batches ...`.  `links_num` is the
table's PRIMARY KEY, so inserting a number that is already present fails
with a constraint violation.  A fired cancellation context fails the
`ExecContext` call before it runs. -/
def CreateBatch (cancelled : Bool) (s : Store) (num : Nat) (st : BatchStatus)
    (createdAt : Nat) : Except Err Store :=
  if cancelled then .error .cancelled
  else if s.batches.any (fun b => decide (b.linksNum = num)) then .error .persistence
  else .ok { s with batches := s.batches ++ [⟨num, st, createdAt⟩] }

/-- `Database.CreateLink`: `INSERT INTO links ...` returning
`LastInsertId`. -/
def CreateLink (cancelled : Bool) (s : Store) (url : String) (st : LinkStatus)
    (batchNum : Nat) (t : Option Nat) : Except Err (Nat × Store) :=
  if cancelled then .error .cancelled
  else .ok (s.nextLinkID,
    { s with links := s.links ++ [⟨s.nextLinkID, url, st, batchNum, t⟩],
             nextLinkID := s.nextLinkID + 1 })

/-- `Database.UpdateLinkStatus`: `UPDATE links SET status = ?, time = ?
WHERE id = ?`.  `fails` is the oracle for a storage-layer failure of this
statement. -/
def UpdateLinkStatus (cancelled : Bool) (fails : Bool) (s : Store) (id : Nat)
    (st : LinkStatus) (t : Option Nat) : Except Err Store :=
  if cancelled then .error .cancelled
  else if fails then .error .persistence
  else .ok { s with
    links := s.links.map fun l =>
      if l.id = id then { l with status := st, time := t } else l }

/-- `Database.UpdateBatchStatus`: `UPDATE batches SET status = ? WHERE
links_num = ?`. -/
def UpdateBatchStatus (cancelled : Bool) (fails : Bool) (s : Store) (num : Nat)
    (st : BatchStatus) : Except Err Store :=
  if cancelled then .error .cancelled
  else if fails then .error .persistence
  else .ok { s with
    batches := s.batches.map fun b =>
      if b.linksNum = num then { b with status := st } else b }

/-- Insertion step of an insertion sort, modelling a SQL `ORDER BY`. -/
def insertOrd (le : α → α → Bool) (x : α) : List α → List α
  | [] => [x]
  | y :: ys => if le x y then x :: y :: ys else y :: insertOrd le x ys

/-- Insertion sort, modelling a SQL `ORDER BY`. -/
def sortOrd (le : α → α → Bool) : List α → List α
  | [] => []
  | x :: xs => insertOrd le x (sortOrd le xs)

/-- `Database.GetBatchesByIDs`: fails on an empty id list, then selects the
batches with `links_num IN (...)` ordered by `links_num` and the links with
`batch_num IN (...)` ordered by `(batch_num, id)`. -/
def GetBatchesByIDs (s : Store) (batchIDs : List Nat) :
    Except Err (List Batch × List Link) :=
  if batchIDs.length = 0 then .error .noBatchIDs
  else
    .ok (sortOrd (fun a b => decide (a.linksNum ≤ b.linksNum))
           (s.batches.filter (fun b => decide (b.linksNum ∈ batchIDs))),
         sortOrd (fun a b =>
             decide (a.batchNum < b.batchNum) ||
               (decide (a.batchNum = b.batchNum) && decide (a.id ≤ b.id)))
           (s.links.filter (fun l => decide (l.batchNum ∈ batchIDs))))

/-- Environment oracles for the network-facing parts of
`URLChecker.checkURLAvailability`: `parse` is `url.Parse` (`none` on error,
otherwise the parsed host), `newRequestOk` is whether `http.NewRequest`
succeeds, `httpResp` is the HTTP round trip (`none` on transport error,
otherwise the response status code). -/
structure ProbeEnv where
  parse : String → Option String
  newRequestOk : String → Bool
  httpResp : String → Option Nat

/-- The scheme-defaulting step at the top of `checkURLAvailability`:
prepend "http://" when neither scheme is present. -/
def normalizeURL (rawURL : String) : String :=
  if rawURL.startsWith "http://" || rawURL.startsWith "https://" then rawURL
  else "http://" ++ rawURL

/-- `URLChecker.checkURLAvailability`: normalize, parse (error or empty
host means not available), build the request, perform it (transport error
means not available), then classify by status code. -/
def checkURLAvailability (env : ProbeEnv) (rawURL : String) : LinkStatus :=
  let u := normalizeURL rawURL
  match env.parse u with
  | none => .notAvailable
  | some host =>
    if host = "" then .notAvailable
    else if env.newRequestOk u = false then .notAvailable
    else
      match env.httpResp u with
      | none => .notAvailable
      | some code =>
        if 200 ≤ code && code < 400 then .available else .notAvailable

/-- One boolean per context observation in `processLinks`/`CheckLinks`:
whether the cancellation context has fired when that point runs.
Per-index fields cover the link-creation loop and the two `select`
checks inside each per-link goroutine. -/
structure CtxTrace where
  atGetNext : Bool
  atCreateBatch : Bool
  atCreateLink : Nat → Bool
  unitCheck1 : Nat → Bool
  unitCheck2 : Nat → Bool
  atUpdateBatch : Bool
  atBatchFailed : Bool

/-- Storage-failure oracles: which `UpdateLinkStatus` calls fail (keyed by
link id) and whether the batch-status update fails. -/
structure DBEnv where
  updateLinkFails : Nat → Bool
  updateBatchFails : Bool

/-- The Go pattern `if err := op(); err != nil { log } ` applied to a
store-returning operation: keep the old store when the operation failed. -/
def applyOrKeep (s : Store) : Except Err Store → Store
  | .ok s' => s'
  | .error _ => s

/-- `URLChecker.getNextID`: read the maximum batch number and add one. -/
def getNextID (cancelled : Bool) (s : Store) : Except Err Nat :=
  if cancelled then .error .cancelled
  else .ok (GetMaxBatchNum s + 1)

/-- The first loop of `processLinks`: create one `processing` link row per
address, collecting the assigned ids in input order; the first failing
insert aborts the loop with its error, keeping the rows already
inserted. -/
def createLinksLoop (tr : CtxTrace) (batchNum : Nat) :
    List String → Nat → Store → Store × Except Err (List Nat)
  | [], _, s => (s, .ok [])
  | l :: rest, idx, s =>
    match CreateLink (tr.atCreateLink idx) s l .processing batchNum none with
    | .error e => (s, .error e)
    | .ok (id, s1) =>
      match createLinksLoop tr batchNum rest (idx + 1) s1 with
      | (s2, .error e) => (s2, .error e)
      | (s2, .ok ids) => (s2, .ok (id :: ids))

/-- The timestamp-stamping step of a per-link unit: the current time is
recorded exactly when the verdict is terminal
(`status == StatusAvailable || status == StatusNotAvailable`). -/
def unitStamp (st : LinkStatus) (now : Nat) : Option Nat :=
  if st = LinkStatus.available || st = LinkStatus.notAvailable then some now
  else none

/-- One per-link goroutine of `processLinks`: bail on a fired context
before probing, probe, stamp the verdict, bail on a fired context before
persisting, persist (a failure is logged and swallowed), then record the
verdict in the indexed result slot. -/
def runUnit (tr : CtxTrace) (env : ProbeEnv) (denv : DBEnv) (now : Nat)
    (batchNum : Nat) (idx : Nat) (l : String) (linkID : Nat) (s : Store) :
    Store × Option Link :=
  if tr.unitCheck1 idx then (s, none)
  else
    let status := checkURLAvailability env l
    let t : Option Nat := unitStamp status now
    if tr.unitCheck2 idx then (s, none)
    else
      let s1 := applyOrKeep s
        (UpdateLinkStatus false (denv.updateLinkFails linkID) s linkID status t)
      (s1, some ⟨linkID, l, status, batchNum, t⟩)

/-- The fan-out of `processLinks`, sequentialized in slot order: the units
act on disjoint link ids and disjoint result slots, so this schedule
realizes the store and results slice produced by the goroutine group. -/
def runUnits (tr : CtxTrace) (env : ProbeEnv) (denv : DBEnv) (now : Nat)
    (batchNum : Nat) : List (String × Nat) → Nat → Store →
    Store × List (Option Link)
  | [], _, s => (s, [])
  | (l, id) :: rest, idx, s =>
    let p := runUnit tr env denv now batchNum idx l id s
    let q := runUnits tr env denv now batchNum rest (idx + 1) p.1
    (q.1, p.2 :: q.2)

/-- `URLChecker.processLinks`: create the rows, fan out one unit per
address, join, then mark the batch `completed` (a failure of that update
is logged and swallowed). -/
def processLinks (tr : CtxTrace) (env : ProbeEnv) (denv : DBEnv) (now : Nat)
    (links : List String) (batchNum : Nat) (s : Store) :
    Store × Except Err (List (Option Link)) :=
  match createLinksLoop tr batchNum links 0 s with
  | (s1, .error e) => (s1, .error e)
  | (s1, .ok ids) =>
    let r := runUnits tr env denv now batchNum (links.zip ids) 0 s1
    let s2 := applyOrKeep r.1
      (UpdateBatchStatus tr.atUpdateBatch denv.updateBatchFails r.1 batchNum
        .completed)
    (s2, .ok r.2)

/-- `string(link.Status)`: the literal status text. -/
def LinkStatus.str : LinkStatus → String
  | .processing => "processing"
  | .available => "available"
  | .notAvailable => "not available"

/-- Whether a Go `map[string]string`, modelled as an association list,
holds the key. -/
def hasKey (m : List (String × String)) (k : String) : Bool :=
  m.any fun p => decide (p.1 = k)

/-- Assignment `m[k] = v` on a Go map modelled as an association list. -/
def mapInsert (m : List (String × String)) (k v : String) :
    List (String × String) :=
  if hasKey m k then m.map (fun p => if p.1 = k then (k, v) else p)
  else m ++ [(k, v)]

/-- The response-assembly loop of `CheckLinks`:
`resultLinks[link.URL] = string(link.Status)` over the result slots.  A
`none` slot is a nil `*models.Link`, whose field access panics: the loop
result is `none`. -/
def assembleLinks : List (Option Link) → List (String × String) →
    Option (List (String × String))
  | [], m => some m
  | none :: _, _ => none
  | some l :: rest, m => assembleLinks rest (mapInsert m l.url l.status.str)

/-- `models.CheckResponse`. -/
structure CheckResponse where
  links : List (String × String)
  linksNum : Nat
deriving Repr, DecidableEq

/-- Outcome of a `CheckLinks` call: a response, an error return, or a
runtime panic (nil dereference), each with the final store. -/
inductive CheckOutcome
  | ok (resp : CheckResponse) (s : Store)
  | failed (e : Err) (s : Store)
  | panicked (s : Store)
deriving Repr, DecidableEq

/-- Final store of a `CheckLinks` outcome. -/
def CheckOutcome.store : CheckOutcome → Store
  | .ok _ s => s
  | .failed _ s => s
  | .panicked s => s

/-- `URLChecker.CheckLinks`: reject an empty list, allocate the next batch
number, insert the batch row as `processing`, process the links (on error,
try to mark the batch `failed`, ignoring that update's own error), then
assemble the address-to-status map from the result slots. -/
def CheckLinks (tr : CtxTrace) (env : ProbeEnv) (denv : DBEnv) (now : Nat)
    (links : List String) (s : Store) : CheckOutcome :=
  if links.length = 0 then .failed .noLinksProvided s
  else
    match getNextID tr.atGetNext s with
    | .error e => .failed e s
    | .ok batchNum =>
      match CreateBatch tr.atCreateBatch s batchNum .processing now with
      | .error e => .failed e s
      | .ok s1 =>
        match processLinks tr env denv now links batchNum s1 with
        | (s2, .error e) =>
          let s3 := applyOrKeep s2
            (UpdateBatchStatus tr.atBatchFailed denv.updateBatchFails s2
              batchNum .failed)
          .failed e s3
        | (s2, .ok results) =>
          match assembleLinks results [] with
          | none => .panicked s2
          | some m => .ok ⟨m, batchNum⟩ s2

/-- The human-readable availability label used by the report:
"Available" for `available`, "Not Available" for everything else. -/
def statusLabel (st : LinkStatus) : String :=
  if st = LinkStatus.available then "Available" else "Not Available"

/-- One rendered batch section of the report document: batch number,
status, creation time, and the itemized links with their labels. -/
structure ReportSection where
  batchNum : Nat
  batchStatus : BatchStatus
  createdAt : Nat
  items : List (String × String)
deriving Repr, DecidableEq

/-- `URLChecker.GeneratePDFReport`: read the requested batches and links,
fail when none of the batches exist, otherwise render one section per
found batch with its links.  The PDF surface is abstracted to the
section structure it renders. -/
def GeneratePDFReport (s : Store) (batchIDs : List Nat) :
    Except Err (List ReportSection) :=
  match GetBatchesByIDs s batchIDs with
  | .error e => .error e
  | .ok (batches, links) =>
    if batches.length = 0 then .error .noValidBatches
    else
      .ok (batches.map fun b =>
        ⟨b.linksNum, b.status, b.createdAt,
         (links.filter fun l => decide (l.batchNum = b.linksNum)).map
           fun l => (l.url, statusLabel l.status)⟩)

/-- The event that wins the four-way `select` a queued report caller
blocks on: worker result, worker error, the 30-second timer, or the
caller's cancellation context. -/
inductive RaceEvent
  | taskResult (doc : List ReportSection)
  | taskError (e : Err)
  | timeout30s
  | ctxDone

/-- The four-way `select` of `GeneratePDFReportAsync` after a successful
enqueue, mapping the winning event to the call's return. -/
def awaitRace : RaceEvent → Except Err (List ReportSection)
  | .taskResult d => .ok d
  | .taskError e => .error e
  | .timeout30s => .error .timeout
  | .ctxDone => .error .cancelled

/-- Which path a `GeneratePDFReportAsync` call took. -/
inductive AsyncPath
  | rejectedShutdown
  | enqueuedWait
  | syncFallback
deriving Repr, DecidableEq

/-- Capacity of `pendingPDFTasks`, from `NewURLChecker`:
`make(chan *PDFTask, 10)`. -/
def queueCapacity : Nat := 10

/-- `URLChecker.GeneratePDFReportAsync`: reject when shut down; otherwise
try a non-blocking enqueue — it succeeds exactly when the buffered channel
has a free slot — and either await the four-way race or, when the queue is
full, build the report synchronously in the caller's context. -/
def GeneratePDFReportAsync (shutdown : Bool) (queueLen : Nat)
    (ev : RaceEvent) (s : Store) (batchIDs : List Nat) :
    AsyncPath × Except Err (List ReportSection) :=
  if shutdown then (.rejectedShutdown, .error .shuttingDown)
  else if queueLen < queueCapacity then (.enqueuedWait, awaitRace ev)
  else (.syncFallback, GeneratePDFReport s batchIDs)

/-- One admission's read step: `getNextID` over the current store. -/
def admitRead (s : Store) : Nat := GetMaxBatchNum s + 1

/-- One admission's insert step: `CreateBatch` of the number read, turning
a lost race into a constraint-violation failure. -/
def admitInsert (s : Store) (num : Nat) (now : Nat) : Except Err Nat × Store :=
  match CreateBatch false s num .processing now with
  | .ok s' => (.ok num, s')
  | .error e => (.error e, s)

/-- The interleavings of two concurrent admissions, each consisting of a
read step followed by an insert step (the store serializes the individual
statements); the letters give the order of the agents' steps, first
occurrence = read, second = insert. -/
inductive Interleaving
  | aabb
  | abab
  | abba
  | baab
  | baba
  | bbaa
deriving Repr, DecidableEq

/-- Whether agent A's insert statement runs before agent B's. -/
def firstInsertIsA : Interleaving → Bool
  | .aabb => true
  | .abab => true
  | .baab => true
  | _ => false

/-- Run two concurrent admissions under the given interleaving, returning
each call's result (assigned number or failure). -/
def runTwo (il : Interleaving) (s : Store) (now : Nat) :
    Except Err Nat × Except Err Nat :=
  match il with
  | .aabb =>
    let p := admitInsert s (admitRead s) now
    let q := admitInsert p.2 (admitRead p.2) now
    (p.1, q.1)
  | .abab =>
    let nA := admitRead s
    let nB := admitRead s
    let p := admitInsert s nA now
    let q := admitInsert p.2 nB now
    (p.1, q.1)
  | .abba =>
    let nA := admitRead s
    let nB := admitRead s
    let q := admitInsert s nB now
    let p := admitInsert q.2 nA now
    (p.1, q.1)
  | .baab =>
    let nB := admitRead s
    let nA := admitRead s
    let p := admitInsert s nA now
    let q := admitInsert p.2 nB now
    (p.1, q.1)
  | .baba =>
    let nB := admitRead s
    let nA := admitRead s
    let q := admitInsert s nB now
    let p := admitInsert q.2 nA now
    (p.1, q.1)
  | .bbaa =>
    let q := admitInsert s (admitRead s) now
    let p := admitInsert q.2 (admitRead q.2) now
    (p.1, q.1)

theorem mem_insertOrd {le : α → α → Bool} {x a : α} {l : List α} :
    a ∈ insertOrd le x l ↔ a = x ∨ a ∈ l := by
  induction l with
  | nil => simp [insertOrd]
  | cons y ys ih =>
    simp only [insertOrd]
    split
    · simp
    · simp only [List.mem_cons, ih]
      tauto

theorem mem_sortOrd {le : α → α → Bool} {a : α} {l : List α} :
    a ∈ sortOrd le l ↔ a ∈ l := by
  induction l with
  | nil => simp [sortOrd]
  | cons x xs ih => simp [sortOrd, mem_insertOrd, ih]

theorem length_insertOrd {le : α → α → Bool} (x : α) (l : List α) :
    (insertOrd le x l).length = l.length + 1 := by
  induction l with
  | nil => rfl
  | cons y ys ih =>
    simp only [insertOrd]
    split
    · simp
    · simp [ih]

theorem length_sortOrd {le : α → α → Bool} (l : List α) :
    (sortOrd le l).length = l.length := by
  induction l with
  | nil => rfl
  | cons x xs ih => simp [sortOrd, length_insertOrd, ih]

theorem foldl_max_ge_init (l : List Batch) (init : Nat) :
    init ≤ l.foldl (fun m b => max m b.linksNum) init := by
  induction l generalizing init with
  | nil => simp
  | cons b bs ih => exact le_trans (le_max_left _ _) (ih _)

theorem mem_le_foldl_max (l : List Batch) (init : Nat) (b : Batch)
    (hb : b ∈ l) : b.linksNum ≤ l.foldl (fun m x => max m x.linksNum) init := by
  induction l generalizing init with
  | nil => cases hb
  | cons c cs ih =>
    rcases List.mem_cons.mp hb with h | h
    · subst h
      exact le_trans (le_max_right init b.linksNum) (foldl_max_ge_init cs _)
    · exact ih _ h

theorem batch_le_max {s : Store} {b : Batch} (hb : b ∈ s.batches) :
    b.linksNum ≤ GetMaxBatchNum s :=
  mem_le_foldl_max _ 0 b hb

theorem CreateBatch_gt_max {s : Store} {num : Nat}
    (h : GetMaxBatchNum s < num) (st : BatchStatus) (now : Nat) :
    CreateBatch false s num st now =
      .ok { s with batches := s.batches ++ [⟨num, st, now⟩] } := by
  have hany : s.batches.any (fun b => decide (b.linksNum = num)) = false := by
    rw [List.any_eq_false]
    intro b hb
    simp only [decide_eq_true_eq]
    intro heq
    have := batch_le_max hb
    omega
  simp [CreateBatch, hany]

theorem CreateBatch_dup {s : Store} {num : Nat} (b : Batch)
    (hb : b ∈ s.batches) (heq : b.linksNum = num) (st : BatchStatus)
    (now : Nat) : CreateBatch false s num st now = .error .persistence := by
  have hany : s.batches.any (fun x => decide (x.linksNum = num)) = true := by
    rw [List.any_eq_true]
    exact ⟨b, hb, by simp [heq]⟩
  simp [CreateBatch, hany]

theorem GetMaxBatchNum_append (s : Store) (b : Batch) :
    GetMaxBatchNum { s with batches := s.batches ++ [b] } =
      max (GetMaxBatchNum s) b.linksNum := by
  show (s.batches ++ [b]).foldl (fun m x => max m x.linksNum) 0 = _
  rw [List.foldl_append]
  rfl

/-- C4: for every store state, `getNextID` (the allocation step of
`CheckLinks`) returns the current maximum batch number plus one, which is
strictly greater than every batch number already allocated in the store,
and the maximum is 0 when the store holds no batches. -/
theorem getNextID_allocates_max_succ (s : Store) :
    getNextID false s = Except.ok (GetMaxBatchNum s + 1) ∧
    (∀ b, b ∈ s.batches → b.linksNum < GetMaxBatchNum s + 1) ∧
    (s.batches = [] → GetMaxBatchNum s = 0) := by
  refine ⟨rfl, ?_, ?_⟩
  · intro b hb
    exact Nat.lt_succ_of_le (batch_le_max hb)
  · intro h
    simp [GetMaxBatchNum, h]

def storeC4 : Store := ⟨[⟨3, .completed, 0⟩], [], 1⟩

theorem getNextID_allocates_max_succ_witness :
    getNextID false storeC4 = Except.ok 4 ∧ (3 : Nat) < 4 :=
  ⟨(getNextID_allocates_max_succ storeC4).1,
   (getNextID_allocates_max_succ storeC4).2.1 ⟨3, .completed, 0⟩ (by decide)⟩

/-- Unfolding equation for `checkURLAvailability` with the local binding
expanded, for case analysis. -/
theorem checkURL_unfold (env : ProbeEnv) (rawURL : String) :
    checkURLAvailability env rawURL =
      (match env.parse (normalizeURL rawURL) with
       | none => LinkStatus.notAvailable
       | some host =>
         if host = "" then LinkStatus.notAvailable
         else if env.newRequestOk (normalizeURL rawURL) = false then
           LinkStatus.notAvailable
         else
           match env.httpResp (normalizeURL rawURL) with
           | none => LinkStatus.notAvailable
           | some code =>
             if 200 ≤ code && code < 400 then LinkStatus.available
             else LinkStatus.notAvailable) := rfl

/-- C5: the prober is a total function into the two verdicts — it never
returns `processing` (and, being a Lean function, never raises) — and it
answers `available` exactly when the normalized address parses to a
non-empty host, the request can be built, and the transport returns a
status code in [200, 400); every parse failure, empty host, request
failure, transport error or out-of-range status code yields
`not available`. -/
theorem checkURLAvailability_total_classification (env : ProbeEnv)
    (rawURL : String) :
    (checkURLAvailability env rawURL = LinkStatus.available ∨
     checkURLAvailability env rawURL = LinkStatus.notAvailable) ∧
    (checkURLAvailability env rawURL = LinkStatus.available ↔
      ∃ host, env.parse (normalizeURL rawURL) = some host ∧ host ≠ "" ∧
        env.newRequestOk (normalizeURL rawURL) = true ∧
        ∃ code, env.httpResp (normalizeURL rawURL) = some code ∧
          200 ≤ code ∧ code < 400) := by
  rw [checkURL_unfold]
  cases hp : env.parse (normalizeURL rawURL) with
  | none =>
    refine ⟨Or.inr rfl, ?_, ?_⟩
    · intro h
      cases h
    · rintro ⟨host, hh, -⟩
      cases hh
  | some host =>
    by_cases hhost : host = ""
    · subst hhost
      refine ⟨Or.inr (by simp), ?_, ?_⟩
      · simp
      · rintro ⟨host', hh, hne, -⟩
        injection hh with hh
        exact absurd hh.symm hne
    · simp only [if_neg hhost]
      cases hq : env.newRequestOk (normalizeURL rawURL) with
      | false =>
        refine ⟨Or.inr (by simp), ?_, ?_⟩
        · simp
        · rintro ⟨host', hh, -, hr, -⟩
          cases hr
      | true =>
        simp only [show ((true = false) = False) by simp, if_false]
        cases hc : env.httpResp (normalizeURL rawURL) with
        | none =>
          refine ⟨Or.inr rfl, ?_, ?_⟩
          · intro h
            cases h
          · rintro ⟨host', hh, -, -, code, hcode, -⟩
            cases hcode
        | some code =>
          by_cases hrange : 200 ≤ code ∧ code < 400
          · have hguard : (200 ≤ code && code < 400) = true := by
              simp [hrange.1, hrange.2]
            refine ⟨Or.inl (by simp [hguard]), ?_, ?_⟩
            · intro _
              exact ⟨host, rfl, hhost, by trivial, code, rfl, hrange⟩
            · intro _
              simp [hguard]
          · have hguard : (200 ≤ code && code < 400) = false := by
              rcases Nat.lt_or_ge code 200 with h | h
              · simp [Nat.not_le_of_lt h]
              · have h2 : ¬ code < 400 := fun hlt => hrange ⟨h, hlt⟩
                simp [h2]
            refine ⟨Or.inr (by simp [hguard]), ?_, ?_⟩
            · simp [hguard]
            · rintro ⟨host', hh, -, -, code', hcode, h1, h2⟩
              injection hcode with hcc
              subst hcc
              exact absurd ⟨h1, h2⟩ hrange

def envC5 : ProbeEnv :=
  ⟨fun _ => some "example.com", fun _ => true, fun _ => some 200⟩

theorem checkURLAvailability_total_classification_witness :
    checkURLAvailability envC5 "example.com" = LinkStatus.available ∨
    checkURLAvailability envC5 "example.com" = LinkStatus.notAvailable :=
  (checkURLAvailability_total_classification envC5 "example.com").1

/-- C6: a `GeneratePDFReportAsync` call made while the shutdown flag is
down and the capacity-10 task queue is full takes the synchronous
fallback: the non-blocking enqueue fails and the caller's return is
exactly a direct `GeneratePDFReport` call in its own context, with no
wait on the queue or the worker. -/
theorem reportAsync_full_queue_sync_fallback (queueLen : Nat)
    (ev : RaceEvent) (s : Store) (batchIDs : List Nat)
    (hfull : queueCapacity ≤ queueLen) :
    GeneratePDFReportAsync false queueLen ev s batchIDs =
      (AsyncPath.syncFallback, GeneratePDFReport s batchIDs) := by
  simp [GeneratePDFReportAsync, Nat.not_lt_of_ge hfull]

theorem reportAsync_full_queue_sync_fallback_witness :
    GeneratePDFReportAsync false 10 RaceEvent.timeout30s ⟨[], [], 1⟩ [1] =
      (AsyncPath.syncFallback, GeneratePDFReport ⟨[], [], 1⟩ [1]) :=
  reportAsync_full_queue_sync_fallback 10 RaceEvent.timeout30s ⟨[], [], 1⟩ [1]
    (by decide)

/-- C7: when the shutdown flag is down and the enqueue succeeds (a free
queue slot exists), the caller blocks on the four-way race and its return
is exactly `awaitRace` of the winning event; the winning event determines
exactly one of the four outcomes — worker payload, worker error, `Timeout`
after the fixed 30-second timer, or `Cancelled` from the caller's
context. -/
theorem reportAsync_enqueued_four_way_race (queueLen : Nat) (ev : RaceEvent)
    (s : Store) (batchIDs : List Nat) (hfree : queueLen < queueCapacity) :
    GeneratePDFReportAsync false queueLen ev s batchIDs =
      (AsyncPath.enqueuedWait, awaitRace ev) ∧
    ((∃ d, ev = RaceEvent.taskResult d ∧ awaitRace ev = Except.ok d) ∨
     (∃ e, ev = RaceEvent.taskError e ∧ awaitRace ev = Except.error e) ∨
     (ev = RaceEvent.timeout30s ∧ awaitRace ev = Except.error Err.timeout) ∨
     (ev = RaceEvent.ctxDone ∧ awaitRace ev = Except.error Err.cancelled)) := by
  refine ⟨by simp [GeneratePDFReportAsync, hfree], ?_⟩
  cases ev with
  | taskResult d => exact Or.inl ⟨d, rfl, rfl⟩
  | taskError e => exact Or.inr (Or.inl ⟨e, rfl, rfl⟩)
  | timeout30s => exact Or.inr (Or.inr (Or.inl ⟨rfl, rfl⟩))
  | ctxDone => exact Or.inr (Or.inr (Or.inr ⟨rfl, rfl⟩))

theorem reportAsync_enqueued_four_way_race_witness :
    GeneratePDFReportAsync false 0 RaceEvent.ctxDone ⟨[], [], 1⟩ [1] =
      (AsyncPath.enqueuedWait, awaitRace RaceEvent.ctxDone) ∧
    ((∃ d, RaceEvent.ctxDone = RaceEvent.taskResult d ∧
        awaitRace RaceEvent.ctxDone = Except.ok d) ∨
     (∃ e, RaceEvent.ctxDone = RaceEvent.taskError e ∧
        awaitRace RaceEvent.ctxDone = Except.error e) ∨
     (RaceEvent.ctxDone = RaceEvent.timeout30s ∧
        awaitRace RaceEvent.ctxDone = Except.error Err.timeout) ∨
     (RaceEvent.ctxDone = RaceEvent.ctxDone ∧
        awaitRace RaceEvent.ctxDone = Except.error Err.cancelled)) :=
  reportAsync_enqueued_four_way_race 0 RaceEvent.ctxDone ⟨[], [], 1⟩ [1]
    (by decide)

theorem admitInsert_gt (s : Store) (num now : Nat)
    (h : GetMaxBatchNum s < num) :
    admitInsert s num now =
      (.ok num,
       { s with batches := s.batches ++ [⟨num, .processing, now⟩] }) := by
  unfold admitInsert
  rw [CreateBatch_gt_max h]

theorem admitInsert_dup (s : Store) (num now : Nat) (b : Batch)
    (hb : b ∈ s.batches) (heq : b.linksNum = num) :
    admitInsert s num now = (.error .persistence, s) := by
  unfold admitInsert
  rw [CreateBatch_dup b hb heq]

theorem runTwo_seqA (s : Store) (now : Nat) :
    runTwo .aabb s now = (.ok (admitRead s), .ok (admitRead s + 1)) := by
  have e1 := admitInsert_gt s (admitRead s) now (Nat.lt_succ_self _)
  have e2 : admitRead
      { s with batches :=
          s.batches ++ [⟨admitRead s, BatchStatus.processing, now⟩] } =
      admitRead s + 1 := by
    show GetMaxBatchNum _ + 1 = _
    rw [GetMaxBatchNum_append]
    show max (GetMaxBatchNum s) (GetMaxBatchNum s + 1) + 1 = _
    rw [Nat.max_eq_right (Nat.le_succ _)]
    rfl
  have e3 : GetMaxBatchNum
      { s with batches :=
          s.batches ++ [⟨admitRead s, BatchStatus.processing, now⟩] } <
      admitRead s + 1 := by
    rw [GetMaxBatchNum_append]
    exact Nat.lt_succ_of_le
      (Nat.max_le.mpr ⟨Nat.le_succ _, Nat.le_refl _⟩)
  have e4 := admitInsert_gt
      { s with batches :=
          s.batches ++ [⟨admitRead s, BatchStatus.processing, now⟩] }
      (admitRead s + 1) now e3
  simp only [runTwo, e1, e2, e4]

theorem runTwo_seqB (s : Store) (now : Nat) :
    runTwo .bbaa s now = (.ok (admitRead s + 1), .ok (admitRead s)) := by
  have e1 := admitInsert_gt s (admitRead s) now (Nat.lt_succ_self _)
  have e2 : admitRead
      { s with batches :=
          s.batches ++ [⟨admitRead s, BatchStatus.processing, now⟩] } =
      admitRead s + 1 := by
    show GetMaxBatchNum _ + 1 = _
    rw [GetMaxBatchNum_append]
    show max (GetMaxBatchNum s) (GetMaxBatchNum s + 1) + 1 = _
    rw [Nat.max_eq_right (Nat.le_succ _)]
    rfl
  have e3 : GetMaxBatchNum
      { s with batches :=
          s.batches ++ [⟨admitRead s, BatchStatus.processing, now⟩] } <
      admitRead s + 1 := by
    rw [GetMaxBatchNum_append]
    exact Nat.lt_succ_of_le
      (Nat.max_le.mpr ⟨Nat.le_succ _, Nat.le_refl _⟩)
  have e4 := admitInsert_gt
      { s with batches :=
          s.batches ++ [⟨admitRead s, BatchStatus.processing, now⟩] }
      (admitRead s + 1) now e3
  simp only [runTwo, e1, e2, e4]

theorem runTwo_race_abab (s : Store) (now : Nat) :
    (runTwo .abab s now).2 = .error .persistence := by
  have e1 := admitInsert_gt s (admitRead s) now (Nat.lt_succ_self _)
  have e4 := admitInsert_dup
      { s with batches :=
          s.batches ++ [⟨admitRead s, BatchStatus.processing, now⟩] }
      (admitRead s) now ⟨admitRead s, BatchStatus.processing, now⟩
      (by simp) rfl
  simp only [runTwo, e1, e4]

theorem runTwo_race_abba (s : Store) (now : Nat) :
    (runTwo .abba s now).1 = .error .persistence := by
  have e1 := admitInsert_gt s (admitRead s) now (Nat.lt_succ_self _)
  have e4 := admitInsert_dup
      { s with batches :=
          s.batches ++ [⟨admitRead s, BatchStatus.processing, now⟩] }
      (admitRead s) now ⟨admitRead s, BatchStatus.processing, now⟩
      (by simp) rfl
  simp only [runTwo, e1, e4]

theorem runTwo_race_baab (s : Store) (now : Nat) :
    (runTwo .baab s now).2 = .error .persistence := by
  have e1 := admitInsert_gt s (admitRead s) now (Nat.lt_succ_self _)
  have e4 := admitInsert_dup
      { s with batches :=
          s.batches ++ [⟨admitRead s, BatchStatus.processing, now⟩] }
      (admitRead s) now ⟨admitRead s, BatchStatus.processing, now⟩
      (by simp) rfl
  simp only [runTwo, e1, e4]

theorem runTwo_race_baba (s : Store) (now : Nat) :
    (runTwo .baba s now).1 = .error .persistence := by
  have e1 := admitInsert_gt s (admitRead s) now (Nat.lt_succ_self _)
  have e4 := admitInsert_dup
      { s with batches :=
          s.batches ++ [⟨admitRead s, BatchStatus.processing, now⟩] }
      (admitRead s) now ⟨admitRead s, BatchStatus.processing, now⟩
      (by simp) rfl
  simp only [runTwo, e1, e4]

/-- C3: under every interleaving of the read and insert statements of two
concurrent admissions over any store, the two calls never both return the
same assigned batch number: when both succeed they are the sequential
interleavings and the later insert gets the strictly larger number, and in
every racing interleaving the primary-key constraint on `links_num` fails
the second insert instead of handing out a duplicate. -/
theorem concurrent_admissions_distinct_batch_numbers (il : Interleaving)
    (s : Store) (now nA nB : Nat)
    (h : runTwo il s now = (Except.ok nA, Except.ok nB)) :
    nA ≠ nB ∧ (firstInsertIsA il = true → nA < nB) ∧
      (firstInsertIsA il = false → nB < nA) := by
  cases il with
  | aabb =>
    rw [runTwo_seqA] at h
    simp only [Prod.mk.injEq, Except.ok.injEq] at h
    obtain ⟨h1, h2⟩ := h
    subst h1
    subst h2
    exact ⟨by omega, fun _ => by omega,
      fun hf => by simp [firstInsertIsA] at hf⟩
  | abab =>
    have hx := runTwo_race_abab s now
    rw [h] at hx
    simp at hx
  | abba =>
    have hx := runTwo_race_abba s now
    rw [h] at hx
    simp at hx
  | baab =>
    have hx := runTwo_race_baab s now
    rw [h] at hx
    simp at hx
  | baba =>
    have hx := runTwo_race_baba s now
    rw [h] at hx
    simp at hx
  | bbaa =>
    rw [runTwo_seqB] at h
    simp only [Prod.mk.injEq, Except.ok.injEq] at h
    obtain ⟨h1, h2⟩ := h
    subst h1
    subst h2
    exact ⟨by omega, fun hf => by simp [firstInsertIsA] at hf,
      fun _ => by omega⟩

theorem concurrent_admissions_distinct_batch_numbers_witness :
    (1 : Nat) ≠ 2 ∧ (firstInsertIsA .aabb = true → (1 : Nat) < 2) ∧
      (firstInsertIsA .aabb = false → (2 : Nat) < 1) :=
  concurrent_admissions_distinct_batch_numbers .aabb ⟨[], [], 1⟩ 0 1 2 rfl

theorem GetBatchesByIDs_ne_nil (s : Store) (batchIDs : List Nat)
    (hne : batchIDs ≠ []) :
    GetBatchesByIDs s batchIDs = .ok
      (sortOrd (fun a b => decide (a.linksNum ≤ b.linksNum))
         (s.batches.filter fun b => decide (b.linksNum ∈ batchIDs)),
       sortOrd (fun a b =>
           decide (a.batchNum < b.batchNum) ||
             (decide (a.batchNum = b.batchNum) && decide (a.id ≤ b.id)))
         (s.links.filter fun l => decide (l.batchNum ∈ batchIDs))) := by
  unfold GetBatchesByIDs
  rw [if_neg (fun h => hne (List.length_eq_zero.mp h))]

/-- C8: the report builder fails (with the empty-input error from the
persistence read) when the batch-number list is empty; fails with the
not-found error when the list is non-empty but none of the numbers match
an existing batch; and for a non-empty request with at least one existing
batch it succeeds, rendering only sections whose batch number was
requested and exists — requested numbers with no batch are silently
omitted. -/
theorem generatePDFReport_contract (s : Store) (batchIDs : List Nat) :
    (batchIDs = [] → GeneratePDFReport s batchIDs = .error .noBatchIDs) ∧
    (batchIDs ≠ [] → (∀ b, b ∈ s.batches → b.linksNum ∉ batchIDs) →
      GeneratePDFReport s batchIDs = .error .noValidBatches) ∧
    (batchIDs ≠ [] → ∀ b0, b0 ∈ s.batches → b0.linksNum ∈ batchIDs →
      ∃ doc, GeneratePDFReport s batchIDs = .ok doc ∧
        ∀ sec, sec ∈ doc → sec.batchNum ∈ batchIDs ∧
          ∃ b, b ∈ s.batches ∧ b.linksNum = sec.batchNum) := by
  refine ⟨?_, ?_, ?_⟩
  · intro h
    subst h
    rfl
  · intro hne hnone
    have hfilter :
        s.batches.filter (fun b => decide (b.linksNum ∈ batchIDs)) = [] := by
      rw [List.filter_eq_nil_iff]
      intro b hb
      simp only [decide_eq_true_eq]
      exact hnone b hb
    simp only [GeneratePDFReport, GetBatchesByIDs_ne_nil s batchIDs hne,
      hfilter]
    simp [sortOrd]
  · intro hne b0 hb0 hmem
    have hb0s : b0 ∈ sortOrd (fun a b => decide (a.linksNum ≤ b.linksNum))
        (s.batches.filter fun b => decide (b.linksNum ∈ batchIDs)) :=
      mem_sortOrd.mpr (List.mem_filter.mpr ⟨hb0, by simpa using hmem⟩)
    have hlen : ¬ (sortOrd (fun a b => decide (a.linksNum ≤ b.linksNum))
        (s.batches.filter fun b => decide (b.linksNum ∈ batchIDs))).length
          = 0 := by
      intro h0
      rw [List.length_eq_zero] at h0
      rw [h0] at hb0s
      cases hb0s
    simp only [GeneratePDFReport, GetBatchesByIDs_ne_nil s batchIDs hne]
    rw [if_neg hlen]
    refine ⟨_, rfl, ?_⟩
    intro sec hsec
    rcases List.mem_map.mp hsec with ⟨b, hbmem, rfl⟩
    have hbf := List.mem_filter.mp (mem_sortOrd.mp hbmem)
    exact ⟨by simpa using hbf.2, b, hbf.1, rfl⟩

def storeC8 : Store :=
  ⟨[⟨1, .completed, 0⟩], [⟨1, "http://a", .available, 1, some 5⟩], 2⟩

theorem generatePDFReport_contract_witness :
    GeneratePDFReport storeC8 [] = Except.error Err.noBatchIDs ∧
    GeneratePDFReport storeC8 [999] = Except.error Err.noValidBatches ∧
    ∃ doc, GeneratePDFReport storeC8 [1, 999] = Except.ok doc ∧
      ∀ sec, sec ∈ doc → sec.batchNum ∈ [1, 999] ∧
        ∃ b, b ∈ storeC8.batches ∧ b.linksNum = sec.batchNum :=
  ⟨(generatePDFReport_contract storeC8 []).1 rfl,
   (generatePDFReport_contract storeC8 [999]).2.1 (by decide)
     (by decide),
   (generatePDFReport_contract storeC8 [1, 999]).2.2 (by decide)
     ⟨1, .completed, 0⟩ (by decide) (by decide)⟩

/-- A context that never fires during the call. -/
def noCancelTrace : CtxTrace :=
  ⟨false, false, fun _ => false, fun _ => false, fun _ => false, false, false⟩

/-- A context that has already fired at entry. -/
def preCancelTrace : CtxTrace :=
  ⟨true, true, fun _ => true, fun _ => true, fun _ => true, true, true⟩

/-- A context that fires after the link rows are created and before any
unit performs its first check. -/
def postCreateCancelTrace : CtxTrace :=
  ⟨false, false, fun _ => false, fun _ => true, fun _ => true, true, true⟩

/-- The result-slot record a unit writes for the pair `(url, linkID)` when
it runs to completion. -/
def unitLink (env : ProbeEnv) (bn now : Nat) (p : String × Nat) : Link :=
  ⟨p.2, p.1, checkURLAvailability env p.1, bn,
   unitStamp (checkURLAvailability env p.1) now⟩

theorem CreateBatch_ok_links {c : Bool} {s s' : Store} {num : Nat}
    {st : BatchStatus} {t : Nat} (h : CreateBatch c s num st t = .ok s') :
    s'.links = s.links ∧ s'.nextLinkID = s.nextLinkID := by
  unfold CreateBatch at h
  cases c
  · by_cases hany : s.batches.any (fun b => decide (b.linksNum = num)) = true
    · simp [hany] at h
    · simp only [Bool.false_eq_true, if_false,
        eq_false_of_ne_true hany] at h
      cases h
      exact ⟨rfl, rfl⟩
  · simp at h

theorem applyOrKeep_UpdateBatchStatus_links (c f : Bool) (s : Store)
    (num : Nat) (st : BatchStatus) :
    (applyOrKeep s (UpdateBatchStatus c f s num st)).links = s.links := by
  unfold applyOrKeep UpdateBatchStatus
  cases c
  · cases f <;> simp
  · simp

theorem applyOrKeep_UpdateLinkStatus_batches (c f : Bool) (s : Store)
    (id : Nat) (st : LinkStatus) (t : Option Nat) :
    (applyOrKeep s (UpdateLinkStatus c f s id st t)).batches = s.batches := by
  unfold applyOrKeep UpdateLinkStatus
  cases c
  · cases f <;> simp
  · simp

theorem runUnit_fst_batches (tr : CtxTrace) (env : ProbeEnv) (denv : DBEnv)
    (now bn idx : Nat) (l : String) (id : Nat) (s : Store) :
    ((runUnit tr env denv now bn idx l id s).1).batches = s.batches := by
  unfold runUnit
  cases h1 : tr.unitCheck1 idx
  · cases h2 : tr.unitCheck2 idx
    · simpa using applyOrKeep_UpdateLinkStatus_batches false
        (denv.updateLinkFails id) s id (checkURLAvailability env l)
        (unitStamp (checkURLAvailability env l) now)
    · simp
  · simp

theorem runUnits_fst_batches (tr : CtxTrace) (env : ProbeEnv) (denv : DBEnv)
    (now bn : Nat) :
    ∀ (pairs : List (String × Nat)) (idx : Nat) (s : Store),
      ((runUnits tr env denv now bn pairs idx s).1).batches = s.batches := by
  intro pairs
  induction pairs with
  | nil => intro idx s; rfl
  | cons p rest ih =>
    intro idx s
    obtain ⟨l, id⟩ := p
    simp only [runUnits]
    rw [ih (idx + 1) (runUnit tr env denv now bn idx l id s).1]
    exact runUnit_fst_batches tr env denv now bn idx l id s

theorem createLinksLoop_ok (tr : CtxTrace) (bn : Nat)
    (hcl : ∀ i, tr.atCreateLink i = false) :
    ∀ (links : List String) (idx : Nat) (s : Store),
      ∃ ids s', createLinksLoop tr bn links idx s = (s', .ok ids) ∧
        ids.length = links.length ∧ s'.batches = s.batches := by
  intro links
  induction links with
  | nil => exact fun idx s => ⟨[], s, rfl, rfl, rfl⟩
  | cons l rest ih =>
    intro idx s
    obtain ⟨ids, s', heq, hlen, hbat⟩ := ih (idx + 1)
      { s with links := s.links ++ [⟨s.nextLinkID, l, .processing, bn, none⟩],
               nextLinkID := s.nextLinkID + 1 }
    refine ⟨s.nextLinkID :: ids, s', ?_, by simp [hlen], hbat⟩
    simp only [createLinksLoop, CreateLink, hcl idx, Bool.false_eq_true,
      if_false, heq]

theorem createLinksLoop_cancelled_head (tr : CtxTrace) (bn : Nat)
    (l : String) (rest : List String) (idx : Nat) (s : Store)
    (h : tr.atCreateLink idx = true) :
    createLinksLoop tr bn (l :: rest) idx s = (s, .error .cancelled) := by
  simp only [createLinksLoop, CreateLink, h, if_true]

theorem runUnits_allCancelled (tr : CtxTrace) (env : ProbeEnv)
    (denv : DBEnv) (now bn : Nat) (hu : ∀ i, tr.unitCheck1 i = true) :
    ∀ (pairs : List (String × Nat)) (idx : Nat) (s : Store),
      runUnits tr env denv now bn pairs idx s =
        (s, pairs.map fun _ => none) := by
  intro pairs
  induction pairs with
  | nil => intro idx s; rfl
  | cons p rest ih =>
    intro idx s
    obtain ⟨l, id⟩ := p
    simp only [runUnits, runUnit, hu idx, if_true, ih (idx + 1) s,
      List.map_cons]

theorem runUnit_noCancel (tr : CtxTrace) (env : ProbeEnv) (denv : DBEnv)
    (now bn idx : Nat) (l : String) (id : Nat) (s : Store)
    (h1 : tr.unitCheck1 idx = false) (h2 : tr.unitCheck2 idx = false) :
    runUnit tr env denv now bn idx l id s =
      (applyOrKeep s (UpdateLinkStatus false (denv.updateLinkFails id) s id
         (checkURLAvailability env l)
         (unitStamp (checkURLAvailability env l) now)),
       some (unitLink env bn now (l, id))) := by
  simp only [runUnit, h1, h2, Bool.false_eq_true, if_false, unitLink]

theorem runUnits_noCancel (tr : CtxTrace) (env : ProbeEnv) (denv : DBEnv)
    (now bn : Nat) (h1 : ∀ i, tr.unitCheck1 i = false)
    (h2 : ∀ i, tr.unitCheck2 i = false) :
    ∀ (pairs : List (String × Nat)) (idx : Nat) (s : Store),
      (runUnits tr env denv now bn pairs idx s).2 =
        pairs.map fun p => some (unitLink env bn now p) := by
  intro pairs
  induction pairs with
  | nil => intro idx s; rfl
  | cons p rest ih =>
    intro idx s
    obtain ⟨l, id⟩ := p
    simp only [runUnits, runUnit_noCancel tr env denv now bn idx l id s
      (h1 idx) (h2 idx), ih (idx + 1), List.map_cons]

theorem hasKey_mapInsert_self (m : List (String × String)) (k v : String) :
    hasKey (mapInsert m k v) k = true := by
  unfold mapInsert
  by_cases hk : hasKey m k = true
  · rw [if_pos hk]
    unfold hasKey at hk ⊢
    rcases List.any_eq_true.mp hk with ⟨p, hp, hpk⟩
    apply List.any_eq_true.mpr
    refine ⟨if p.1 = k then (k, v) else p, List.mem_map.mpr ⟨p, hp, rfl⟩, ?_⟩
    rw [if_pos (of_decide_eq_true hpk)]
    simp
  · rw [if_neg hk]
    unfold hasKey
    apply List.any_eq_true.mpr
    exact ⟨(k, v), List.mem_append_right _ (by simp), by simp⟩

theorem hasKey_mapInsert_mono (m : List (String × String)) (k k' v : String)
    (h : hasKey m k = true) : hasKey (mapInsert m k' v) k = true := by
  unfold mapInsert
  have h2 := h
  unfold hasKey at h2
  rcases List.any_eq_true.mp h2 with ⟨p, hp, hpk⟩
  have hpk' : p.1 = k := of_decide_eq_true hpk
  by_cases hk' : hasKey m k' = true
  · rw [if_pos hk']
    unfold hasKey
    apply List.any_eq_true.mpr
    refine ⟨if p.1 = k' then (k', v) else p, List.mem_map.mpr ⟨p, hp, rfl⟩, ?_⟩
    by_cases hq : p.1 = k'
    · rw [if_pos hq]
      have hkk : k' = k := hq.symm.trans hpk'
      simp [hkk]
    · rw [if_neg hq]
      exact hpk
  · rw [if_neg hk']
    unfold hasKey
    apply List.any_eq_true.mpr
    exact ⟨p, List.mem_append_left _ hp, hpk⟩

theorem assembleLinks_total :
    ∀ (results : List (Option Link)) (m : List (String × String)),
      (∀ r ∈ results, r.isSome = true) →
      ∃ m', assembleLinks results m = some m' ∧
        ∀ k, (hasKey m k = true ∨ ∃ l, some l ∈ results ∧ l.url = k) →
          hasKey m' k = true := by
  intro results
  induction results with
  | nil =>
    intro m _
    refine ⟨m, rfl, ?_⟩
    intro k hk
    rcases hk with hk | ⟨l, hl, -⟩
    · exact hk
    · simp at hl
  | cons r rest ih =>
    intro m hall
    cases r with
    | none =>
      have := hall none (by simp)
      simp at this
    | some l =>
      obtain ⟨m', heq, hkey⟩ := ih (mapInsert m l.url l.status.str)
        (fun r hr => hall r (List.mem_cons_of_mem _ hr))
      refine ⟨m', heq, ?_⟩
      intro k hk
      rcases hk with hk | ⟨l', hl', hurl⟩
      · exact hkey k (Or.inl (hasKey_mapInsert_mono m k l.url l.status.str hk))
      · rcases List.mem_cons.mp hl' with hh | hh
        · have hll : l' = l := by injection hh
          have h0 : hasKey (mapInsert m l.url l.status.str) l'.url = true := by
            rw [hll]
            exact hasKey_mapInsert_self m l.url l.status.str
          rw [← hurl]
          exact hkey l'.url (Or.inl h0)
        · exact hkey k (Or.inr ⟨l', hh, hurl⟩)

theorem mem_zip_left :
    ∀ (xs : List String) (ys : List Nat), xs.length = ys.length →
      ∀ x ∈ xs, ∃ y, (x, y) ∈ xs.zip ys := by
  intro xs
  induction xs with
  | nil =>
    intro ys _ x hx
    cases hx
  | cons a as ih =>
    intro ys hlen x hx
    cases ys with
    | nil => simp at hlen
    | cons b bs =>
      rcases List.mem_cons.mp hx with rfl | hx'
      · exact ⟨b, by simp⟩
      · obtain ⟨y, hy⟩ := ih bs (by simpa using hlen) x hx'
        exact ⟨y, List.mem_cons_of_mem _ hy⟩

/-- Positive side of the C1 analysis: for every `CheckLinks` call whose
cancellation signal has already taken effect by the time the per-link rows
would be created, the call does return a cancelled error and the links
table is unchanged — no row of the new batch exists (so every row of the
batch is trivially still `processing`) and per-link updates committed
before cancellation remain committed.  When cancellation instead takes
effect only after the rows are created, the error return does not happen:
see the C1 theorem and C2. -/
theorem checkLinks_cancelled_before_rows (tr : CtxTrace) (env : ProbeEnv)
    (denv : DBEnv) (now : Nat) (links : List String) (s : Store)
    (hcl : ∀ i, tr.atCreateLink i = true) (hne : links ≠ []) :
    ∃ s', CheckLinks tr env denv now links s =
        CheckOutcome.failed Err.cancelled s' ∧ s'.links = s.links := by
  obtain ⟨l0, rest0, rfl⟩ := List.exists_cons_of_ne_nil hne
  cases hg : tr.atGetNext with
  | true =>
    refine ⟨s, ?_, rfl⟩
    simp [CheckLinks, getNextID, hg]
  | false =>
    cases hcb : tr.atCreateBatch with
    | true =>
      refine ⟨s, ?_, rfl⟩
      simp [CheckLinks, getNextID, hg, CreateBatch, hcb]
    | false =>
      have hgn : getNextID tr.atGetNext s =
          .ok (GetMaxBatchNum s + 1) := by
        simp [getNextID, hg]
      have hcbe := CreateBatch_gt_max (s := s) (Nat.lt_succ_self _)
        BatchStatus.processing now
      have hloop := createLinksLoop_cancelled_head tr (GetMaxBatchNum s + 1)
        l0 rest0 0
        { s with batches := s.batches ++
            [⟨GetMaxBatchNum s + 1, BatchStatus.processing, now⟩] }
        (hcl 0)
      refine ⟨applyOrKeep
          { s with batches := s.batches ++
              [⟨GetMaxBatchNum s + 1, BatchStatus.processing, now⟩] }
          (UpdateBatchStatus tr.atBatchFailed denv.updateBatchFails
            { s with batches := s.batches ++
                [⟨GetMaxBatchNum s + 1, BatchStatus.processing, now⟩] }
            (GetMaxBatchNum s + 1) .failed), ?_, ?_⟩
      · simp only [CheckLinks, List.length_cons, hgn, hcb, hcbe,
          processLinks, hloop]
        simp
      · rw [applyOrKeep_UpdateBatchStatus_links]

/-- A probe environment in which every request fails. -/
def env0 : ProbeEnv := ⟨fun _ => none, fun _ => false, fun _ => none⟩

/-- A storage environment without persistence failures. -/
def denv0 : DBEnv := ⟨fun _ => false, false⟩

/-- An empty database. -/
def store0 : Store := ⟨[], [], 1⟩

theorem checkLinks_cancelled_before_rows_witness :
    ∃ s', CheckLinks preCancelTrace env0 denv0 0 ["x"] store0 =
        CheckOutcome.failed Err.cancelled s' ∧ s'.links = store0.links :=
  checkLinks_cancelled_before_rows preCancelTrace env0 denv0 0 ["x"] store0
    (fun _ => rfl) (List.cons_ne_nil _ _)

/-- C1: evaluation of the code at the failing input.  On the one-address
call `["x"]` over an empty store, with a cancellation signal that fires
after the link row is created but before any per-address unit completes —
a timing the claim's premise covers — `CheckLinks` does not return a
`Cancelled` error: it panics (nil `*models.Link` dereference in response
assembly).  The row is indeed left `processing`, but the promised error
return does not happen, so the code diverges from the spec's cancellation
failure semantics at this input. -/
theorem checkLinks_cancel_after_rows_panics_cex :
    CheckLinks postCreateCancelTrace env0 denv0 0 ["x"] store0 =
      CheckOutcome.panicked
        ⟨[⟨1, .processing, 0⟩], [⟨1, "x", .processing, 1, none⟩], 2⟩ := by
  rfl

/-- C2: when the cancellation signal is already fired by the time the
per-address units run, but had not fired while the batch and link rows
were created, every unit returns at its first check without writing its
result slot: `processLinks` returns a full-length, all-nil result slice
with no error, and `CheckLinks` reaches the nil-dereference (panic) branch
of its response assembly instead of returning an error. -/
theorem processLinks_cancelled_units_nil_slots (tr : CtxTrace)
    (env : ProbeEnv) (denv : DBEnv) (now : Nat) (links : List String)
    (s : Store) (bn : Nat) (hg : tr.atGetNext = false)
    (hcb : tr.atCreateBatch = false) (hcl : ∀ i, tr.atCreateLink i = false)
    (hu1 : ∀ i, tr.unitCheck1 i = true) (hne : links ≠ []) :
    (∃ s1 res, processLinks tr env denv now links bn s = (s1, .ok res) ∧
      res.length = links.length ∧ ∀ r ∈ res, r = none) ∧
    (∃ s', CheckLinks tr env denv now links s = CheckOutcome.panicked s') := by
  have key : ∀ (bn' : Nat) (s0 : Store),
      ∃ s1 res, processLinks tr env denv now links bn' s0 = (s1, .ok res) ∧
        res.length = links.length ∧ ∀ r ∈ res, r = none := by
    intro bn' s0
    obtain ⟨ids, s', heq, hlen, -⟩ := createLinksLoop_ok tr bn' hcl links 0 s0
    have hru := runUnits_allCancelled tr env denv now bn' hu1
      (links.zip ids) 0 s'
    simp only [processLinks, heq, hru]
    refine ⟨_, _, rfl, ?_, ?_⟩
    · simp [List.length_zip, hlen]
    · intro r hr
      rcases List.mem_map.mp hr with ⟨p, -, rfl⟩
      rfl
  refine ⟨key bn s, ?_⟩
  obtain ⟨l0, rest0, rfl⟩ := List.exists_cons_of_ne_nil hne
  have hgn : getNextID tr.atGetNext s = .ok (GetMaxBatchNum s + 1) := by
    simp [getNextID, hg]
  have hcbe := CreateBatch_gt_max (s := s) (Nat.lt_succ_self _)
    BatchStatus.processing now
  obtain ⟨s1x, resx, hpeq, hlenx, hnonex⟩ := key (GetMaxBatchNum s + 1)
    { s with batches := s.batches ++
        [⟨GetMaxBatchNum s + 1, BatchStatus.processing, now⟩] }
  have hres : ∃ rs, resx = none :: rs := by
    cases resx with
    | nil => simp at hlenx
    | cons r rs => exact ⟨rs, by rw [hnonex r (by simp)]⟩
  obtain ⟨rs, rfl⟩ := hres
  refine ⟨s1x, ?_⟩
  simp only [CheckLinks, List.length_cons, hgn, hcb, hcbe, hpeq,
    assembleLinks]
  simp

theorem processLinks_cancelled_units_nil_slots_witness :
    (∃ s1 res,
      processLinks postCreateCancelTrace env0 denv0 0 ["x"] 1 store0 =
        (s1, .ok res) ∧
      res.length = (["x"] : List String).length ∧ ∀ r ∈ res, r = none) ∧
    (∃ s', CheckLinks postCreateCancelTrace env0 denv0 0 ["x"] store0 =
        CheckOutcome.panicked s') :=
  processLinks_cancelled_units_nil_slots postCreateCancelTrace env0 denv0 0
    ["x"] store0 1 rfl rfl (fun _ => rfl) (fun _ => rfl)
    (List.cons_ne_nil _ _)

/-- C9: with a cancellation signal that never fires, arbitrary per-link
persistence failures and a succeeding batch-status update, every per-link
unit records its verdict in its result slot (no slot is left nil), and
after all units join the batch row is marked `completed` and `CheckLinks`
returns the per-address verdict map without error — every input address is
a key of the response. -/
theorem processLinks_persistence_failure_swallowed (env : ProbeEnv)
    (denv : DBEnv) (now : Nat) (links : List String) (s : Store)
    (hub : denv.updateBatchFails = false) (hne : links ≠ []) :
    (∀ (bn : Nat) (pairs : List (String × Nat)) (idx : Nat) (s0 : Store)
       (r : Option Link),
       r ∈ (runUnits noCancelTrace env denv now bn pairs idx s0).2 →
       r.isSome = true) ∧
    (∃ resp s', CheckLinks noCancelTrace env denv now links s =
        CheckOutcome.ok resp s' ∧
      (⟨GetMaxBatchNum s + 1, BatchStatus.completed, now⟩ : Batch) ∈
        s'.batches ∧
      ∀ url ∈ links, hasKey resp.links url = true) := by
  refine ⟨?_, ?_⟩
  · intro bn pairs idx s0 r hr
    rw [runUnits_noCancel noCancelTrace env denv now bn (fun _ => rfl)
      (fun _ => rfl) pairs idx s0] at hr
    rcases List.mem_map.mp hr with ⟨p, -, rfl⟩
    rfl
  · have hlen0 : ¬ links.length = 0 :=
      fun h => hne (List.length_eq_zero.mp h)
    have hgn : getNextID noCancelTrace.atGetNext s =
        .ok (GetMaxBatchNum s + 1) := rfl
    have hACB : noCancelTrace.atCreateBatch = false := rfl
    have hcbe := CreateBatch_gt_max (s := s) (Nat.lt_succ_self _)
      BatchStatus.processing now
    set sApp : Store := { s with batches := s.batches ++
        [⟨GetMaxBatchNum s + 1, BatchStatus.processing, now⟩] } with hsApp
    obtain ⟨ids, s', heq, hlen, hbat⟩ := createLinksLoop_ok noCancelTrace
      (GetMaxBatchNum s + 1) (fun _ => rfl) links 0 sApp
    set r1 := (runUnits noCancelTrace env denv now (GetMaxBatchNum s + 1)
        (links.zip ids) 0 s').1 with hr1
    set s3 : Store := { r1 with batches := r1.batches.map fun b =>
        if b.linksNum = GetMaxBatchNum s + 1 then
          { b with status := BatchStatus.completed } else b } with hs3
    have hpl : processLinks noCancelTrace env denv now links
        (GetMaxBatchNum s + 1) sApp =
        (s3, .ok ((links.zip ids).map fun p =>
          some (unitLink env (GetMaxBatchNum s + 1) now p))) := by
      simp only [processLinks, heq]
      rw [runUnits_noCancel noCancelTrace env denv now (GetMaxBatchNum s + 1)
        (fun _ => rfl) (fun _ => rfl) (links.zip ids) 0 s']
      rw [show noCancelTrace.atUpdateBatch = false from rfl, hub]
      rw [← hr1, hs3]
      rfl
    obtain ⟨m', hasm, hkeys⟩ := assembleLinks_total
      ((links.zip ids).map fun p =>
        some (unitLink env (GetMaxBatchNum s + 1) now p)) []
      (by
        intro r hr
        rcases List.mem_map.mp hr with ⟨p, -, rfl⟩
        rfl)
    have hCL : CheckLinks noCancelTrace env denv now links s =
        CheckOutcome.ok ⟨m', GetMaxBatchNum s + 1⟩ s3 := by
      simp only [CheckLinks, if_neg hlen0, hgn, hACB, hcbe, ← hsApp, hpl,
        hasm]
    refine ⟨⟨m', GetMaxBatchNum s + 1⟩, s3, hCL, ?_, ?_⟩
    · have hb3 : s3.batches = r1.batches.map (fun b =>
          if b.linksNum = GetMaxBatchNum s + 1 then
            { b with status := BatchStatus.completed } else b) := by
        rw [hs3]
      have hrb : r1.batches = s.batches ++
          [⟨GetMaxBatchNum s + 1, BatchStatus.processing, now⟩] := by
        rw [hr1, runUnits_fst_batches, hbat, hsApp]
      rw [hb3, hrb]
      exact List.mem_map.mpr
        ⟨⟨GetMaxBatchNum s + 1, BatchStatus.processing, now⟩, by simp,
         by simp⟩
    · intro url hurl
      obtain ⟨id, hid⟩ := mem_zip_left links ids hlen.symm url hurl
      refine hkeys url (Or.inr
        ⟨unitLink env (GetMaxBatchNum s + 1) now (url, id), ?_, rfl⟩)
      exact List.mem_map.mpr ⟨(url, id), hid, rfl⟩

/-- A storage environment in which every per-link status update fails. -/
def denvFail : DBEnv := ⟨fun _ => true, false⟩

theorem processLinks_persistence_failure_swallowed_witness :
    (Option.some (unitLink env0 1 0 ("x", 1))).isSome = true ∧
    (∃ resp s', CheckLinks noCancelTrace env0 denvFail 0 ["x"] store0 =
        CheckOutcome.ok resp s' ∧
      (⟨1, BatchStatus.completed, 0⟩ : Batch) ∈ s'.batches ∧
      ∀ url ∈ ["x"], hasKey resp.links url = true) :=
  ⟨(processLinks_persistence_failure_swallowed env0 denvFail 0 ["x"] store0
      rfl (List.cons_ne_nil _ _)).1 1 [("x", 1)] 0 store0 _ (by decide),
   (processLinks_persistence_failure_swallowed env0 denvFail 0 ["x"] store0
      rfl (List.cons_ne_nil _ _)).2⟩

/-- The timestamp/status agreement for one row: the timestamp is non-null
exactly when the status is one of the two terminal verdicts. -/
def statusTimeOK (st : LinkStatus) (t : Option Nat) : Prop :=
  t.isSome = true ↔ (st = LinkStatus.available ∨ st = LinkStatus.notAvailable)

/-- The link-table invariant: the row's timestamp is set iff its status is
`available` or `not available`. -/
def linkInv (l : Link) : Prop := statusTimeOK l.status l.time

theorem statusTimeOK_unitStamp (st : LinkStatus) (now : Nat) :
    statusTimeOK st (unitStamp st now) := by
  unfold statusTimeOK unitStamp
  by_cases h : st = LinkStatus.available ∨ st = LinkStatus.notAvailable
  · rcases h with h | h <;> simp [h]
  · have h1 : ¬ st = LinkStatus.available := fun hh => h (Or.inl hh)
    have h2 : ¬ st = LinkStatus.notAvailable := fun hh => h (Or.inr hh)
    simp [h1, h2]

theorem allInv_UpdateLink (c f : Bool) (s : Store) (id : Nat)
    (st : LinkStatus) (t : Option Nat) (hs : ∀ l ∈ s.links, linkInv l)
    (hok : statusTimeOK st t) :
    ∀ l ∈ (applyOrKeep s (UpdateLinkStatus c f s id st t)).links,
      linkInv l := by
  cases c with
  | true => simpa [applyOrKeep, UpdateLinkStatus] using hs
  | false =>
    cases f with
    | true => simpa [applyOrKeep, UpdateLinkStatus] using hs
    | false =>
      intro l hl
      have hred : (applyOrKeep s
          (UpdateLinkStatus false false s id st t)).links =
          s.links.map fun l0 =>
            if l0.id = id then { l0 with status := st, time := t }
            else l0 := rfl
      rw [hred] at hl
      rcases List.mem_map.mp hl with ⟨l0, hl0, rfl⟩
      by_cases hid : l0.id = id
      · simpa [hid, linkInv] using hok
      · simpa [hid] using hs l0 hl0

theorem allInv_runUnit (tr : CtxTrace) (env : ProbeEnv) (denv : DBEnv)
    (now bn idx : Nat) (l : String) (id : Nat) (s : Store)
    (hs : ∀ x ∈ s.links, linkInv x) :
    ∀ x ∈ ((runUnit tr env denv now bn idx l id s).1).links, linkInv x := by
  cases h1 : tr.unitCheck1 idx with
  | true =>
    have he : runUnit tr env denv now bn idx l id s = (s, none) := by
      simp [runUnit, h1]
    rw [he]
    exact hs
  | false =>
    cases h2 : tr.unitCheck2 idx with
    | true =>
      have he : runUnit tr env denv now bn idx l id s = (s, none) := by
        simp [runUnit, h1, h2]
      rw [he]
      exact hs
    | false =>
      rw [runUnit_noCancel tr env denv now bn idx l id s h1 h2]
      exact allInv_UpdateLink false (denv.updateLinkFails id) s id
        (checkURLAvailability env l)
        (unitStamp (checkURLAvailability env l) now) hs
        (statusTimeOK_unitStamp _ _)

theorem allInv_runUnits (tr : CtxTrace) (env : ProbeEnv) (denv : DBEnv)
    (now bn : Nat) :
    ∀ (pairs : List (String × Nat)) (idx : Nat) (s : Store),
      (∀ x ∈ s.links, linkInv x) →
      ∀ x ∈ ((runUnits tr env denv now bn pairs idx s).1).links,
        linkInv x := by
  intro pairs
  induction pairs with
  | nil =>
    intro idx s hs
    exact hs
  | cons p rest ih =>
    intro idx s hs
    obtain ⟨l, id⟩ := p
    simp only [runUnits]
    exact ih (idx + 1) _ (allInv_runUnit tr env denv now bn idx l id s hs)

theorem allInv_createLinksLoop (tr : CtxTrace) (bn : Nat) :
    ∀ (links : List String) (idx : Nat) (s : Store),
      (∀ x ∈ s.links, linkInv x) →
      ∀ x ∈ ((createLinksLoop tr bn links idx s).1).links, linkInv x := by
  intro links
  induction links with
  | nil =>
    intro idx s hs
    exact hs
  | cons l rest ih =>
    intro idx s hs
    cases hb : tr.atCreateLink idx with
    | true =>
      rw [createLinksLoop_cancelled_head tr bn l rest idx s hb]
      exact hs
    | false =>
      have hnew : ∀ x ∈
          ({ s with links := s.links ++ [⟨s.nextLinkID, l, .processing, bn, none⟩],
                    nextLinkID := s.nextLinkID + 1 } : Store).links, linkInv x := by
        intro x hx
        rcases List.mem_append.mp hx with hx | hx
        · exact hs x hx
        · rcases List.mem_singleton.mp hx with rfl
          simp [linkInv, statusTimeOK]
      have hstep := ih (idx + 1) _ hnew
      simp only [createLinksLoop, CreateLink, hb, Bool.false_eq_true,
        if_false]
      rcases hrec : createLinksLoop tr bn rest (idx + 1)
        { s with links := s.links ++ [⟨s.nextLinkID, l, .processing, bn, none⟩],
                 nextLinkID := s.nextLinkID + 1 } with ⟨s2, r2⟩
      rw [hrec] at hstep
      cases r2 with
      | error e => exact hstep
      | ok ids => exact hstep

theorem allInv_processLinks (tr : CtxTrace) (env : ProbeEnv) (denv : DBEnv)
    (now : Nat) (links : List String) (bn : Nat) (s : Store)
    (hs : ∀ x ∈ s.links, linkInv x) :
    ∀ x ∈ ((processLinks tr env denv now links bn s).1).links, linkInv x := by
  have hloop := allInv_createLinksLoop tr bn links 0 s hs
  rcases hrec : createLinksLoop tr bn links 0 s with ⟨s1, r1⟩
  rw [hrec] at hloop
  simp only [processLinks, hrec]
  cases r1 with
  | error e => exact hloop
  | ok ids =>
    intro x hx
    rw [applyOrKeep_UpdateBatchStatus_links] at hx
    exact allInv_runUnits tr env denv now bn (links.zip ids) 0 s1 hloop x hx

/-- C10: the link-table invariant — a row's timestamp is non-null iff its
status is `available` or `not available` — is preserved by every
`CheckLinks` call under every cancellation timing and every failure
oracle: rows are created `processing` with a null timestamp, and the
per-link terminal update writes a verdict (always terminal) together with
a timestamp. -/
theorem link_timestamp_invariant (tr : CtxTrace) (env : ProbeEnv)
    (denv : DBEnv) (now : Nat) (links : List String) (s : Store)
    (hs : ∀ x ∈ s.links, linkInv x) :
    ∀ x ∈ ((CheckLinks tr env denv now links s).store).links, linkInv x := by
  unfold CheckLinks
  split
  · exact hs
  · split
    · exact hs
    · split
      · exact hs
      · rename_i scrA batchNum heq1 scrB s1 hcb
        have hs1 : ∀ x ∈ s1.links, linkInv x := by
          rw [(CreateBatch_ok_links hcb).1]
          exact hs
        have hplinv := allInv_processLinks tr env denv now links batchNum
          s1 hs1
        split
        · rename_i s2 e hpe
          rw [hpe] at hplinv
          intro x hx
          simp only [CheckOutcome.store] at hx
          rw [applyOrKeep_UpdateBatchStatus_links] at hx
          exact hplinv x hx
        · rename_i s2 results hpe
          rw [hpe] at hplinv
          split
          · exact hplinv
          · exact hplinv

theorem link_timestamp_invariant_witness :
    linkInv ⟨1, "x", LinkStatus.notAvailable, 1, some 0⟩ :=
  link_timestamp_invariant noCancelTrace env0 denv0 0 ["x"] store0
    (by intro x hx; simp [store0] at hx)
    ⟨1, "x", LinkStatus.notAvailable, 1, some 0⟩ (by decide)
